import Mathlib

/-!
Verification of the MoonClock discovery-and-instrumentation engine and its
default timing aggregator, shallowly embedded from `src/src/MoonClock.cpp`
and the declarations in `MoonClock.hpp`.

Lua values are modelled by an inductive `Value` type; reference identity of
composites is equality of heap addresses.  The Lua heap is an association
list from addresses to objects, where an object is either a native table or
a protocol-driven ("userdata with __pairs/__index/__newindex metamethods")
composite; both carry an ordered field list, mirroring the enumeration
order `lua_next` (or the `__pairs` iterator) would produce.  `double`
timestamps are modelled as rationals; the `std::numeric_limits<double>::max()`
sentinel used by `FunctionInformation::minTime` becomes the exact rational
value of DBL_MAX.
-/

namespace MoonClock

/-- A Lua value: nil, a number, a string, a C/Lua function (identified by an
id), an instrumented wrapper closure built by `StartInstrumentation`
(closing over the original callable and its path), or a reference to a heap
composite. -/
inductive Value where
  | nil : Value
  | num (q : ℚ) : Value
  | str (s : String) : Value
  | fn (fid : Nat) : Value
  | wrapped (orig : Value) (path : List String) : Value
  | ref (a : Nat) : Value
deriving DecidableEq

/-- A heap object: a native Lua table, or a protocol-driven composite (a
userdata whose metatable implements `__pairs`, `__index` and `__newindex`).
Both hold an ordered association list of fields. -/
inductive Obj where
  | table (fields : List (String × Value)) : Obj
  | meta (fields : List (String × Value)) : Obj
deriving DecidableEq

/-- The Lua heap: addresses mapped to composite objects. -/
abbrev Heap := List (Nat × Obj)

/-- A path of string keys locating a callable from the traversal root. -/
abbrev Path := List String

/-- First-match lookup in an association list, with a default. -/
def mGet {K : Type} [DecidableEq K] {α : Type} (d : α) (k : K) : List (K × α) → α
  | [] => d
  | (k', v) :: rest => if k' = k then v else mGet d k rest

/-- First-match lookup in an association list, returning an option. -/
def mFind {K : Type} [DecidableEq K] {α : Type} (k : K) : List (K × α) → Option α
  | [] => none
  | (k', v) :: rest => if k' = k then some v else mFind k rest

/-- Find-or-create-then-modify on an association list: the semantics of
`std::map::operator[]` followed by a mutation `f`; absent keys are appended
at the end with `f` applied to the default `d`. -/
def mAdj {K : Type} [DecidableEq K] {α : Type} (d : α) (k : K) (f : α → α) :
    List (K × α) → List (K × α)
  | [] => [(k, f d)]
  | (k', v) :: rest => if k' = k then (k', f v) :: rest else (k', v) :: mAdj d k f rest

/-- The field list of a heap object. -/
def objFields : Obj → List (String × Value)
  | Obj.table fields => fields
  | Obj.meta fields => fields

/-- Rebuild an object with one field set (the effect of `lua_settable` on a
native table, or of the table-valued `__newindex` backing store of a
protocol-driven composite). -/
def setObjField (o : Obj) (k : String) (v : Value) : Obj :=
  match o with
  | Obj.table fields => Obj.table (mAdj Value.nil k (fun _ => v) fields)
  | Obj.meta fields => Obj.meta (mAdj Value.nil k (fun _ => v) fields)

/-- Write field `k` of the object at address `a`; a dangling address leaves
the heap unchanged. -/
def heapSet (h : Heap) (a : Nat) (k : String) (v : Value) : Heap :=
  match h with
  | [] => []
  | (a', o) :: rest =>
    if a' = a then (a', setObjField o k v) :: rest else (a', o) :: heapSet rest a k v

/-- Read a member of a composite by key (`lua_rawget`, and also the
table-backed `__index` of a protocol-driven composite); any non-reference
value or dangling address yields nil. -/
def rawget (h : Heap) (v : Value) (k : String) : Value :=
  match v with
  | Value.ref a =>
    match mFind a h with
    | some o => mGet Value.nil k (objFields o)
    | none => Value.nil
  | _ => Value.nil

/-- The fixed denylist of root-relative key paths (`tablePathsToAvoid` in
`DoNotSearch`), in the iteration order of the `std::set`. -/
def tablePathsToAvoid : List (List String) :=
  [["_G"], ["package", "loaded"], ["package", "searchers"]]

/-- Resolve one denylist path: start from the value of the global `_G`
(`lua_getglobal(lua, "_G")` reads field `"_G"` of the globals table at
address `g`), then follow the keys by successive raw lookups. -/
def resolveAvoidPath (h : Heap) (g : Nat) (p : List String) : Value :=
  p.foldl (rawget h) (rawget h (Value.ref g) "_G")

/-- `MoonClock::DoNotSearch`: true when the candidate value is identical
(primitive `LUA_OPEQ` comparison; reference identity for composites) to a
composite resolved from any of the denylisted paths. -/
def DoNotSearch (h : Heap) (g : Nat) (v : Value) : Bool :=
  tablePathsToAvoid.any (fun p => resolveAvoidPath h g p = v)

/-- `IsInstrumentableLuaMeta`: the value is a protocol-driven composite,
i.e. it has a metatable implementing `__pairs`, `__index` and `__newindex`.
In the model these are exactly the `Obj.meta` objects. -/
def IsInstrumentableLuaMeta (h : Heap) (v : Value) : Bool :=
  match v with
  | Value.ref a =>
    match mFind a h with
    | some (Obj.meta _) => true
    | _ => false
  | _ => false

/-- `lua_istable`. -/
def isLuaTable (h : Heap) (v : Value) : Bool :=
  match v with
  | Value.ref a =>
    match mFind a h with
    | some (Obj.table _) => true
    | _ => false
  | _ => false

/-- `lua_isfunction`: true for plain functions and for the wrapper closures
(which are C closures, hence functions to Lua). -/
def isLuaFunction (v : Value) : Bool :=
  match v with
  | Value.fn _ => true
  | Value.wrapped _ _ => true
  | _ => false

/-- One entry of the discovery results list: the path from the traversal
root, the address of the composite containing the function (`parent`), and
the function value itself (`fn`). -/
structure CallableRecord where
  path : List String
  parent : Nat
  fn : Value
deriving DecidableEq

/-- The key at which a record's function lives in its parent composite: the
last component of its path (`path[#path]` in the C++ source). -/
def keyOf (r : CallableRecord) : String := r.path.getLastD ""

/-- The three reserved capability keys skipped in protocol mode. -/
def isReservedKey (k : String) : Bool :=
  k = "__index" || k = "__newindex" || k = "__pairs"

/-- The heap address of a reference value (only ever used under a guard
that established the value is a composite reference). -/
def refAddr : Value → Nat
  | Value.ref a => a
  | _ => 0

mutual

/-- `FindFunctionsInCompositeLuaKeyValue`: examine one (key, value) member
of the composite at address `parent`.  Skip a member identical to its own
parent, skip denylisted composites, recurse into protocol-driven composites
(Protocol mode) or tables (Native mode), and record functions.  Recursion
through the heap is bounded by `fuel`. -/
def FindFunctionsInCompositeLuaKeyValue (g : Nat) (h : Heap) (fuel : Nat)
    (parent : Nat) (key : String) (v : Value) (path : List String) :
    List CallableRecord :=
  match fuel with
  | 0 => []
  | Nat.succ fuel =>
    if v = Value.ref parent then []
    else if DoNotSearch h g v then []
    else if IsInstrumentableLuaMeta h v then
      FindFunctionsInCompositeLuaMeta g h fuel (refAddr v) (path ++ [key])
    else if isLuaTable h v then
      FindFunctionsInCompositeLuaTable g h fuel (refAddr v) (path ++ [key])
    else if isLuaFunction v then
      [⟨path ++ [key], parent, v⟩]
    else []

/-- `FindFunctionsInCompositeLuaTable`: enumerate the table at `addr` with
`lua_next` and hand each member to the key-value routine. -/
def FindFunctionsInCompositeLuaTable (g : Nat) (h : Heap) (fuel : Nat)
    (addr : Nat) (path : List String) : List CallableRecord :=
  match fuel with
  | 0 => []
  | Nat.succ fuel =>
    match mFind addr h with
    | some o =>
      (objFields o).flatMap
        (fun kv => FindFunctionsInCompositeLuaKeyValue g h fuel addr kv.1 kv.2 path)
    | none => []

/-- `FindFunctionsInCompositeLuaMeta`: drive the `__pairs` iterator of the
protocol-driven composite at `addr`, explicitly skipping the three reserved
capability keys, and hand each remaining member to the key-value routine. -/
def FindFunctionsInCompositeLuaMeta (g : Nat) (h : Heap) (fuel : Nat)
    (addr : Nat) (path : List String) : List CallableRecord :=
  match fuel with
  | 0 => []
  | Nat.succ fuel =>
    match mFind addr h with
    | some o =>
      (objFields o).flatMap
        (fun kv =>
          if isReservedKey kv.1 then []
          else FindFunctionsInCompositeLuaKeyValue g h fuel addr kv.1 kv.2 path)
    | none => []

end

/-- `MoonClock::FindFunctionsInComposite`: dispatch on whether the root is
protocol-driven or a native table and collect the discovered records.
(Calling the C++ function on a value that is neither is a Lua C API misuse;
the model returns no records there.) -/
def FindFunctionsInComposite (g : Nat) (h : Heap) (fuel : Nat) (root : Value) :
    List CallableRecord :=
  if IsInstrumentableLuaMeta h root then
    FindFunctionsInCompositeLuaMeta g h fuel (refAddr root) []
  else if isLuaTable h root then
    FindFunctionsInCompositeLuaTable g h fuel (refAddr root) []
  else []

/-- The exact rational value of `std::numeric_limits<double>::max()`, the
initializer of `FunctionInformation::minTime`. -/
def dblMax : ℚ := (2 ^ 53 - 1) * 2 ^ 971

/-- `MoonClock::CallsInformation`: one caller-to-callee edge. -/
structure CallsInformation where
  numCalls : Nat := 0
  totalTime : ℚ := 0
deriving DecidableEq

/-- `MoonClock::FunctionInformation`: per-function statistics plus the
outgoing caller-to-callee edges, with `minTime` initialized to the largest
finite double. -/
structure FunctionInformation where
  numCalls : Nat := 0
  minTime : ℚ := dblMax
  totalTime : ℚ := 0
  maxTime : ℚ := 0
  calls : List (Path × CallsInformation) := []
deriving DecidableEq

/-- `MoonClock::Report`: mapping of function path to its statistics,
modelled as an association list in first-insertion order (the claims below
only ever inspect lookups and the key set). -/
structure Report where
  functionInfo : List (Path × FunctionInformation) := []
deriving DecidableEq

/-- `MoonClock::Impl::CallStackLocation`: one frame of the aggregator's
explicit call stack. -/
structure CallStackLocation where
  start : ℚ := 0
  path : Path
deriving DecidableEq

/-- `MoonClock::Impl`: the private engine state.  `luaRegistry = none`
models `luaRegistryIndex == 0` (no active session); `some records` models a
nonzero registry reference holding the instrumented-functions table.
`luaHeld` models the retained `std::shared_ptr<lua_State>`. -/
structure Impl where
  callStack : List CallStackLocation := []
  report : Report := {}
  luaHeld : Bool := false
  luaRegistry : Option (List CallableRecord) := none
deriving DecidableEq

/-- `MoonClock::DefaultBeforeInstrument`, with the clock sample `now`
supplied as a parameter (the `Timekeeping::Clock` collaborator).  Records
the caller-to-callee edge when the stack is non-empty, increments this
function's call count, and pushes a frame. -/
def DefaultBeforeInstrument (now : ℚ) (path : Path) (s : Impl) : Impl :=
  let report1 :=
    match s.callStack with
    | [] => s.report
    | caller :: _ =>
      Report.mk (mAdj {} caller.path
        (fun fi =>
          { fi with
            calls := mAdj {} path
              (fun ci => { ci with numCalls := ci.numCalls + 1 }) fi.calls })
        s.report.functionInfo)
  let report2 :=
    Report.mk (mAdj {} path (fun fi => { fi with numCalls := fi.numCalls + 1 })
      report1.functionInfo)
  { s with
    report := report2
    callStack := ⟨now, path⟩ :: s.callStack }

/-- `MoonClock::DefaultAfterInstrument`, with the clock sample `now`
supplied as a parameter.  The C++ function reads `callStack.top()`
unconditionally; an empty stack is undefined behaviour, modelled as
`none`. -/
def DefaultAfterInstrument (now : ℚ) (path : Path) (s : Impl) : Option Impl :=
  match s.callStack with
  | [] => none
  | call :: rest =>
    let total := now - call.start
    let report1 :=
      Report.mk (mAdj {} path
        (fun fi =>
          { fi with
            minTime := min fi.minTime total
            totalTime := fi.totalTime + total
            maxTime := max fi.maxTime total })
        s.report.functionInfo)
    let report2 :=
      match rest with
      | [] => report1
      | caller :: _ =>
        Report.mk (mAdj {} caller.path
          (fun fi =>
            { fi with
              calls := mAdj {} path
                (fun ci => { ci with totalTime := ci.totalTime + total }) fi.calls })
          report1.functionInfo)
    some { s with report := report2, callStack := rest }

/-- Install every discovered record: write a wrapper closing over the
original callable and its path into (parent, last path key), in discovery
order. -/
def installRecords (h : Heap) (rs : List CallableRecord) : Heap :=
  rs.foldl (fun hh r => heapSet hh r.parent (keyOf r) (Value.wrapped r.fn r.path)) h

/-- Write every retained record's original callable back into
(parent, last path key), in registry order. -/
def restoreRecords (h : Heap) (rs : List CallableRecord) : Heap :=
  rs.foldl (fun hh r => heapSet hh r.parent (keyOf r) r.fn) h

/-- `MoonClock::Impl::StartInstrumentation`: no-op while a session is
active (`luaRegistryIndex != 0`); otherwise discover every callable
reachable from the globals table `_G`, install a wrapper for each, and
retain the records under a fresh registry reference.  Note the source does
not reset `report` or `callStack` here. -/
def StartInstrumentation (fuel : Nat) (h : Heap) (g : Nat) (s : Impl) :
    Impl × Heap :=
  match s.luaRegistry with
  | some _ => (s, h)
  | none =>
    let records := FindFunctionsInComposite g h fuel (rawget h (Value.ref g) "_G")
    ({ s with luaHeld := true, luaRegistry := some records },
      installRecords h records)

/-- `MoonClock::Impl::StopInstrumentation`: no-op while no session is
active; otherwise restore every retained record's original callable,
release the registry reference and the `lua_State`. -/
def StopInstrumentation (h : Heap) (s : Impl) : Impl × Heap :=
  match s.luaRegistry with
  | none => (s, h)
  | some records =>
    ({ s with luaRegistry := none, luaHeld := false }, restoreRecords h records)

/-- `MoonClock::GenerateReport`: returns a copy of the aggregator's Report
without mutating any state. -/
def GenerateReport (s : Impl) : Report := s.report

/-- One hook invocation in a driven timeline: a Before or After call at a
given clock value for a given path (mirroring how the unit tests drive the
default instruments with a mock clock). -/
inductive HookCall where
  | beforeHook (t : ℚ) (p : Path) : HookCall
  | afterHook (t : ℚ) (p : Path) : HookCall
deriving DecidableEq

/-- Run a timeline of default-hook invocations over the engine state. -/
def runTimeline (s : Impl) : List HookCall → Option Impl
  | [] => some s
  | HookCall.beforeHook t p :: rest => runTimeline (DefaultBeforeInstrument t p s) rest
  | HookCall.afterHook t p :: rest =>
    match DefaultAfterInstrument t p s with
    | some s' => runTimeline s' rest
    | none => none

/-- Observable events produced by a custom hook pair that logs calls. -/
inductive HookEvent where
  | beforeEv (p : Path) : HookEvent
  | afterEv (p : Path) : HookEvent
deriving DecidableEq

/-- Invoke a callable value: a plain function applies its implementation to
the argument list; a wrapper (the closure built by `StartInstrumentation`)
calls the before hook, forwards the received arguments unchanged to the
original callable, captures its full return-value set, calls the after
hook, and returns the captured values unchanged.  Hooks act on a caller
state of type `σ` (the `context`). -/
def invokeValue {σ : Type} (impls : Nat → List Value → List Value)
    (beforeHook afterHook : Path → σ → σ) :
    Value → List Value → σ → List Value × σ
  | Value.fn fid, args, st => (impls fid args, st)
  | Value.wrapped orig path, args, st =>
    let st1 := beforeHook path st
    let res := invokeValue impls beforeHook afterHook orig args st1
    (res.1, afterHook path res.2)
  | _, _, st => ([], st)

/-- Lookup of a path's statistics in a Report (absent paths give the
default-initialized `FunctionInformation`). -/
def reportGet (r : Report) (p : Path) : FunctionInformation :=
  mGet {} p r.functionInfo

/-- Lookup of a callee edge in a function's outgoing edges. -/
def callsGet (fi : FunctionInformation) (p : Path) : CallsInformation :=
  mGet {} p fi.calls

/-- A well-formed heap: no composite has two fields with the same key
(guaranteed in Lua, where table keys are unique). -/
def WFHeap (h : Heap) : Prop :=
  ∀ e ∈ h, ((objFields e.2).map Prod.fst).Nodup

/-- A minimal globals table: `_G` refers to itself and nothing else is
reachable, so discovery finds zero callables. -/
def heapGlobalsOnly : Heap := [(0, Obj.table [("_G", Value.ref 0)])]

/-- The nested-composite example of the discovery-completeness test:
a root table `foo` (address 1) holding table `bar` (address 2, containing
function `baz`) and function `spam`; address 0 is a minimal globals
table. -/
def heapNested : Heap :=
  [(0, Obj.table [("_G", Value.ref 0)]),
   (1, Obj.table [("bar", Value.ref 2), ("spam", Value.fn 2)]),
   (2, Obj.table [("baz", Value.fn 1)])]

/-- A heap where one table `u` (address 2, containing function `f`) is
reachable through two aliases `t.a` and `t.b` of the globals member `t`. -/
def heapAliased : Heap :=
  [(0, Obj.table [("_G", Value.ref 0), ("t", Value.ref 1)]),
   (1, Obj.table [("a", Value.ref 2), ("b", Value.ref 2)]),
   (2, Obj.table [("f", Value.fn 7)])]

/-- The concrete timeline of the `Default_Instruments` test: enter `foo`
at 1.0, enter `bar` at 1.2, exit `bar` at 1.3, enter `bar` at 1.45, exit
`bar` at 1.5, exit `foo` at 1.6 (decimals as exact rationals). -/
def timelineDefault : List HookCall :=
  [HookCall.beforeHook 1 ["foo"], HookCall.beforeHook (6/5) ["bar"],
   HookCall.afterHook (13/10) ["bar"], HookCall.beforeHook (29/20) ["bar"],
   HookCall.afterHook (3/2) ["bar"], HookCall.afterHook (8/5) ["foo"]]

/-- The second-session timeline of the `Default_Instruments_Second_Run`
test: the same call shape driven at clock values 1.9 through 2.4. -/
def timelineSecond : List HookCall :=
  [HookCall.beforeHook (19/10) ["foo"], HookCall.beforeHook 2 ["bar"],
   HookCall.afterHook (21/10) ["bar"], HookCall.beforeHook (11/5) ["bar"],
   HookCall.afterHook (23/10) ["bar"], HookCall.afterHook (12/5) ["foo"]]

/-- The recursion timeline: enter `foo` at 1.0, re-enter `foo` (self-call)
at 1.2, inner exit at 1.3, outer exit at 1.4. -/
def timelineRecursion : List HookCall :=
  [HookCall.beforeHook 1 ["foo"], HookCall.beforeHook (6/5) ["foo"],
   HookCall.afterHook (13/10) ["foo"], HookCall.afterHook (7/5) ["foo"]]

/-- A globals table holding a single function `foo` (id 1) that doubles its
numeric argument. -/
def heapSingleFn : Heap := [(0, Obj.table [("_G", Value.ref 0), ("foo", Value.fn 1)])]

/-- Implementations of the plain functions in `heapSingleFn`: function 1
doubles a single numeric argument. -/
def doubleImpl : Nat → List Value → List Value := fun fid args =>
  if fid = 1 then
    match args with
    | [Value.num x] => [Value.num (2 * x)]
    | _ => []
  else []

/-- A custom before hook that logs the call (the `lines` vector of the
`Instrument_Single_Function` test). -/
def logBefore (p : Path) (log : List HookEvent) : List HookEvent :=
  log ++ [HookEvent.beforeEv p]

/-- A custom after hook that logs the call. -/
def logAfter (p : Path) (log : List HookEvent) : List HookEvent :=
  log ++ [HookEvent.afterEv p]

/-- Start of the custom-hooks session over `heapSingleFn`. -/
def c6Start : Impl × Heap := StartInstrumentation 10 heapSingleFn 0 {}

/-- First instrumented invocation: the global `foo` applied to 5. -/
def c6Call1 : List Value × List HookEvent :=
  invokeValue doubleImpl logBefore logAfter (rawget c6Start.2 (Value.ref 0) "foo")
    [Value.num 5] []

/-- Second instrumented invocation: the global `foo` applied to 6. -/
def c6Call2 : List Value × List HookEvent :=
  invokeValue doubleImpl logBefore logAfter (rawget c6Start.2 (Value.ref 0) "foo")
    [Value.num 6] c6Call1.2

/-- Third instrumented invocation: the global `foo` applied to 7. -/
def c6Call3 : List Value × List HookEvent :=
  invokeValue doubleImpl logBefore logAfter (rawget c6Start.2 (Value.ref 0) "foo")
    [Value.num 7] c6Call2.2

/-- Stop of the custom-hooks session. -/
def c6Stop : Impl × Heap := StopInstrumentation c6Start.2 c6Start.1

/-- Post-Stop invocation: the global `foo` applied to 42 after restore. -/
def c6Call4 : List Value × List HookEvent :=
  invokeValue doubleImpl logBefore logAfter (rawget c6Stop.2 (Value.ref 0) "foo")
    [Value.num 42] c6Call3.2

/-- The second-session pipeline of `Default_Instruments_Second_Run`: a full
Start, first timeline, Stop, GenerateReport cycle, then Start again and the
second timeline, Stop, and the final Report. -/
def secondSessionReport : Option Report :=
  let p1 := StartInstrumentation 10 heapGlobalsOnly 0 {}
  match runTimeline p1.1 timelineDefault with
  | none => none
  | some s2 =>
    let p3 := StopInstrumentation p1.2 s2
    let p4 := StartInstrumentation 10 p3.2 0 p3.1
    match runTimeline p4.1 timelineSecond with
    | none => none
    | some s5 => some (GenerateReport (StopInstrumentation p4.2 s5).1)

/-- The engine state right after a Start that discovered zero records. -/
def c1Impl1 : Impl := { luaHeld := true, luaRegistry := some [] }

/-- The Report accumulated by the first session's timeline. -/
def c1Report1 : Report :=
  Report.mk [(["foo"], ⟨1, 3/5, 3/5, 3/5, [(["bar"], ⟨2, 3/20⟩)]⟩),
             (["bar"], ⟨2, 1/20, 3/20, 1/10, []⟩)]

/-- The engine state after the first session's timeline (session active). -/
def c1Impl2 : Impl := { report := c1Report1, luaHeld := true, luaRegistry := some [] }

/-- The engine state after the first Stop: the Report survives. -/
def c1Impl3 : Impl := { report := c1Report1, luaHeld := false, luaRegistry := none }

/-- The Report after the second session's timeline: first-session values are
still present and have been accumulated into. -/
def c1Report2 : Report :=
  Report.mk [(["foo"], ⟨2, 1/2, 11/10, 3/5, [(["bar"], ⟨4, 7/20⟩)]⟩),
             (["bar"], ⟨4, 1/20, 7/20, 1/10, []⟩)]

/-- The engine state after the second session's timeline. -/
def c1Impl5 : Impl := { report := c1Report2, luaHeld := true, luaRegistry := some [] }

/-- The engine state after the final Stop. -/
def c1Impl6 : Impl := { report := c1Report2, luaHeld := false, luaRegistry := none }

theorem mGet_mAdj_self {K : Type} [DecidableEq K] {α : Type} (d : α) (k : K)
    (f : α → α) (m : List (K × α)) :
    mGet d k (mAdj d k f m) = f (mGet d k m) := by
  induction m with
  | nil => simp [mGet, mAdj]
  | cons kv rest ih =>
    obtain ⟨k', v⟩ := kv
    by_cases hk : k' = k
    · simp [mGet, mAdj, hk]
    · simp [mGet, mAdj, hk, ih]

theorem mGet_mAdj_ne {K : Type} [DecidableEq K] {α : Type} (d d' : α) (k k' : K)
    (f : α → α) (m : List (K × α)) (hk : k' ≠ k) :
    mGet d' k' (mAdj d k f m) = mGet d' k' m := by
  induction m with
  | nil => simp [mGet, mAdj, Ne.symm hk]
  | cons kv rest ih =>
    obtain ⟨k0, v0⟩ := kv
    by_cases h0 : k0 = k
    · subst h0
      simp [mGet, mAdj, Ne.symm hk]
    · simp [mGet, mAdj, h0, ih]

/-- In an association list whose keys are not duplicated, membership of a
pair determines the first-match lookup. -/
theorem mGet_of_mem {K : Type} [DecidableEq K] {α : Type} (d : α) (k : K) (v : α)
    (m : List (K × α)) (hnd : (m.map Prod.fst).Nodup) (hmem : (k, v) ∈ m) :
    mGet d k m = v := by
  induction m with
  | nil => simp at hmem
  | cons kv rest ih =>
    obtain ⟨k0, v0⟩ := kv
    simp only [List.map_cons, List.nodup_cons] at hnd
    rcases List.mem_cons.mp hmem with h | h
    · cases h
      simp [mGet]
    · have hk0 : k0 ≠ k := by
        intro he
        exact hnd.1 (by rw [he]; exact List.mem_map.mpr ⟨(k, v), h, rfl⟩)
      simp [mGet, hk0, ih hnd.2 h]

theorem objFields_setObjField (o : Obj) (k : String) (v : Value) :
    objFields (setObjField o k v) = mAdj Value.nil k (fun _ => v) (objFields o) := by
  cases o <;> rfl

theorem mFind_heapSet_self (h : Heap) (a : Nat) (k : String) (v : Value) (o : Obj)
    (ho : mFind a h = some o) :
    mFind a (heapSet h a k v) = some (setObjField o k v) := by
  induction h with
  | nil => simp [mFind] at ho
  | cons e rest ih =>
    obtain ⟨a0, o0⟩ := e
    by_cases ha : a0 = a
    · subst ha
      simp [mFind] at ho
      simp [heapSet, mFind, ho]
    · simp [mFind, ha] at ho
      simp [heapSet, mFind, ha, ih ho]

theorem heapSet_of_mFind_none (h : Heap) (a : Nat) (k : String) (v : Value)
    (ho : mFind a h = none) : heapSet h a k v = h := by
  induction h with
  | nil => rfl
  | cons e rest ih =>
    obtain ⟨a0, o0⟩ := e
    by_cases ha : a0 = a
    · simp [mFind, ha] at ho
    · simp [mFind, ha] at ho
      simp [heapSet, ha, ih ho]

theorem mFind_heapSet_ne (h : Heap) (a b : Nat) (k : String) (v : Value)
    (hab : b ≠ a) : mFind b (heapSet h a k v) = mFind b h := by
  induction h with
  | nil => rfl
  | cons e rest ih =>
    obtain ⟨a0, o0⟩ := e
    by_cases ha : a0 = a
    · subst ha
      simp [heapSet, mFind, Ne.symm hab]
    · simp [heapSet, mFind, ha]
      by_cases hb : a0 = b
      · simp [hb]
      · simp [hb, ih]

theorem mFind_heapSet_isSome (h : Heap) (a b : Nat) (k : String) (v : Value) :
    (mFind b (heapSet h a k v)).isSome = (mFind b h).isSome := by
  by_cases hab : b = a
  · subst hab
    cases ho : mFind b h with
    | none => rw [heapSet_of_mFind_none h b k v ho, ho]
    | some o => rw [mFind_heapSet_self h b k v o ho]; rfl
  · rw [mFind_heapSet_ne h a b k v hab]

theorem rawget_heapSet_self (h : Heap) (a : Nat) (k : String) (v : Value)
    (hs : (mFind a h).isSome) :
    rawget (heapSet h a k v) (Value.ref a) k = v := by
  cases ho : mFind a h with
  | none => simp [ho] at hs
  | some o =>
    simp [rawget, mFind_heapSet_self h a k v o ho, objFields_setObjField,
      mGet_mAdj_self]

theorem rawget_heapSet_ne (h : Heap) (a b : Nat) (k k' : String) (v : Value)
    (hne : b ≠ a ∨ k' ≠ k) :
    rawget (heapSet h a k v) (Value.ref b) k' = rawget h (Value.ref b) k' := by
  by_cases hab : b = a
  · subst hab
    rcases hne with hba | hkk
    · exact absurd rfl hba
    · cases ho : mFind b h with
      | none => rw [heapSet_of_mFind_none h b k v ho]
      | some o =>
        simp [rawget, mFind_heapSet_self h b k v o ho, ho, objFields_setObjField,
          mGet_mAdj_ne _ _ _ _ _ _ hkk]
  · rw [rawget, rawget, mFind_heapSet_ne h a b k v hab]

theorem mFind_mem {K : Type} [DecidableEq K] {α : Type} (k : K) (v : α)
    (m : List (K × α)) (hf : mFind k m = some v) : (k, v) ∈ m := by
  induction m with
  | nil => simp [mFind] at hf
  | cons kv rest ih =>
    obtain ⟨k0, v0⟩ := kv
    by_cases hk : k0 = k
    · subst hk
      simp [mFind] at hf
      simp [hf]
    · simp [mFind, hk] at hf
      exact List.mem_cons_of_mem _ (ih hf)

theorem WFHeap.nodup_of_mFind {h : Heap} (hwf : WFHeap h) {a : Nat} {o : Obj}
    (hf : mFind a h = some o) : ((objFields o).map Prod.fst).Nodup :=
  hwf (a, o) (mFind_mem a o h hf)

theorem getLastD_concat {α : Type} (l : List α) (x : α) (d : α) :
    (l ++ [x]).getLastD d = x := by
  induction l generalizing d with
  | nil => rfl
  | cons y ys ih =>
    rw [List.cons_append, List.getLastD_cons, ih]

theorem mFind_isSome_of_rawget_ne_nil (h : Heap) (a : Nat) (k : String)
    (hne : rawget h (Value.ref a) k ≠ Value.nil) : (mFind a h).isSome := by
  cases hf : mFind a h with
  | none => simp [rawget, hf] at hne
  | some o => rfl

theorem isLuaFunction_ne_nil (v : Value) (hv : isLuaFunction v = true) :
    v ≠ Value.nil := by
  cases v <;> simp [isLuaFunction] at hv ⊢

theorem installRecords_isSome (rs : List CallableRecord) (h : Heap) (a : Nat) :
    (mFind a (installRecords h rs)).isSome = (mFind a h).isSome := by
  induction rs generalizing h with
  | nil => rfl
  | cons r rest ih =>
    rw [installRecords, List.foldl_cons, ← installRecords, ih,
      mFind_heapSet_isSome]

/-- Soundness of discovery: every record produced from a well-formed heap
carries a function value that is exactly the heap's current member at
(parent, last path key), and its path is non-empty.  Stated jointly for the
three mutually recursive traversal routines and proved by induction on the
fuel. -/
theorem discovery_sound (g : Nat) (h : Heap) (hwf : WFHeap h) :
    ∀ fuel : Nat,
      (∀ parent key v path r,
        rawget h (Value.ref parent) key = v →
        r ∈ FindFunctionsInCompositeLuaKeyValue g h fuel parent key v path →
        isLuaFunction r.fn = true ∧ r.path ≠ [] ∧
          rawget h (Value.ref r.parent) (keyOf r) = r.fn) ∧
      (∀ addr path r,
        r ∈ FindFunctionsInCompositeLuaTable g h fuel addr path →
        isLuaFunction r.fn = true ∧ r.path ≠ [] ∧
          rawget h (Value.ref r.parent) (keyOf r) = r.fn) ∧
      (∀ addr path r,
        r ∈ FindFunctionsInCompositeLuaMeta g h fuel addr path →
        isLuaFunction r.fn = true ∧ r.path ≠ [] ∧
          rawget h (Value.ref r.parent) (keyOf r) = r.fn) := by
  intro fuel
  induction fuel with
  | zero =>
    refine ⟨?_, ?_, ?_⟩
    · intro parent key v path r _ hr
      simp [FindFunctionsInCompositeLuaKeyValue] at hr
    · intro addr path r hr
      simp [FindFunctionsInCompositeLuaTable] at hr
    · intro addr path r hr
      simp [FindFunctionsInCompositeLuaMeta] at hr
  | succ fuel ih =>
    obtain ⟨ihKV, ihT, ihM⟩ := ih
    have hKV : ∀ parent key v path r,
        rawget h (Value.ref parent) key = v →
        r ∈ FindFunctionsInCompositeLuaKeyValue g h (Nat.succ fuel) parent key v path →
        isLuaFunction r.fn = true ∧ r.path ≠ [] ∧
          rawget h (Value.ref r.parent) (keyOf r) = r.fn := by
      intro parent key v path r hv hr
      rw [FindFunctionsInCompositeLuaKeyValue] at hr
      by_cases hself : v = Value.ref parent
      · simp [hself] at hr
      · rw [if_neg hself] at hr
        by_cases hdns : DoNotSearch h g v
        · simp [hdns] at hr
        · rw [if_neg (by simp [hdns])] at hr
          by_cases hmeta : IsInstrumentableLuaMeta h v
          · rw [if_pos hmeta] at hr
            exact ihM (refAddr v) (path ++ [key]) r hr
          · rw [if_neg (by simp [hmeta])] at hr
            by_cases htab : isLuaTable h v
            · rw [if_pos htab] at hr
              exact ihT (refAddr v) (path ++ [key]) r hr
            · rw [if_neg (by simp [htab])] at hr
              by_cases hfn : isLuaFunction v
              · rw [if_pos hfn] at hr
                simp at hr
                subst hr
                refine ⟨hfn, by simp, ?_⟩
                rw [keyOf]
                simp only [getLastD_concat]
                exact hv
              · simp [hfn] at hr
    refine ⟨hKV, ?_, ?_⟩
    · intro addr path r hr
      rw [FindFunctionsInCompositeLuaTable] at hr
      cases hf : mFind addr h with
      | none => simp [hf] at hr
      | some o =>
        rw [hf] at hr
        simp only [List.mem_flatMap] at hr
        obtain ⟨⟨k, v⟩, hkv, hr⟩ := hr
        have hget : rawget h (Value.ref addr) k = v := by
          rw [rawget, hf]
          exact mGet_of_mem _ _ _ _ (hwf.nodup_of_mFind hf) hkv
        exact ihKV addr k v path r hget hr
    · intro addr path r hr
      rw [FindFunctionsInCompositeLuaMeta] at hr
      cases hf : mFind addr h with
      | none => simp [hf] at hr
      | some o =>
        rw [hf] at hr
        simp only [List.mem_flatMap] at hr
        obtain ⟨⟨k, v⟩, hkv, hr⟩ := hr
        by_cases hres : isReservedKey k
        · simp [hres] at hr
        · rw [if_neg (by simp [hres])] at hr
          have hget : rawget h (Value.ref addr) k = v := by
            rw [rawget, hf]
            exact mGet_of_mem _ _ _ _ (hwf.nodup_of_mFind hf) hkv
          exact ihKV addr k v path r hget hr

/-- Soundness of discovery, lifted to the root dispatcher. -/
theorem discovery_sound_root (g : Nat) (h : Heap) (fuel : Nat) (root : Value)
    (hwf : WFHeap h) (r : CallableRecord)
    (hr : r ∈ FindFunctionsInComposite g h fuel root) :
    isLuaFunction r.fn = true ∧ r.path ≠ [] ∧
      rawget h (Value.ref r.parent) (keyOf r) = r.fn := by
  rw [FindFunctionsInComposite] at hr
  by_cases hmeta : IsInstrumentableLuaMeta h root
  · rw [if_pos hmeta] at hr
    exact (discovery_sound g h hwf fuel).2.2 (refAddr root) [] r hr
  · rw [if_neg (by simp [hmeta])] at hr
    by_cases htab : isLuaTable h root
    · rw [if_pos htab] at hr
      exact (discovery_sound g h hwf fuel).2.1 (refAddr root) [] r hr
    · simp [htab] at hr

/-- Effect of the Stop restore loop on heap reads: a location named by some
retained record is put back to its pre-Start value (every retained record's
`fn` is exactly the pre-Start member at its location), and every other
location is untouched by the loop. -/
theorem restoreRecords_get (h0 : Heap) :
    ∀ (rs : List CallableRecord) (h' : Heap),
      (∀ r ∈ rs, isLuaFunction r.fn = true ∧
        rawget h0 (Value.ref r.parent) (keyOf r) = r.fn) →
      (∀ a, (mFind a h').isSome = (mFind a h0).isSome) →
      (∀ a k, (∃ r ∈ rs, r.parent = a ∧ keyOf r = k) →
        rawget (restoreRecords h' rs) (Value.ref a) k =
          rawget h0 (Value.ref a) k) ∧
      (∀ a k, (¬ ∃ r ∈ rs, r.parent = a ∧ keyOf r = k) →
        rawget (restoreRecords h' rs) (Value.ref a) k =
          rawget h' (Value.ref a) k) := by
  intro rs
  induction rs with
  | nil =>
    intro h' _ _
    exact ⟨fun a k hex => by simp at hex, fun a k _ => rfl⟩
  | cons r rest ih =>
    intro h' hsound hsome
    have hrOK := hsound r (List.mem_cons_self r rest)
    have hrestOK : ∀ r' ∈ rest, isLuaFunction r'.fn = true ∧
        rawget h0 (Value.ref r'.parent) (keyOf r') = r'.fn :=
      fun r' hr' => hsound r' (List.mem_cons_of_mem r hr')
    have hstep : restoreRecords h' (r :: rest) =
        restoreRecords (heapSet h' r.parent (keyOf r) r.fn) rest := rfl
    have hsome2 : ∀ a, (mFind a (heapSet h' r.parent (keyOf r) r.fn)).isSome =
        (mFind a h0).isSome := by
      intro a
      rw [mFind_heapSet_isSome, hsome a]
    have hvalid0 : (mFind r.parent h0).isSome := by
      apply mFind_isSome_of_rawget_ne_nil h0 r.parent (keyOf r)
      rw [hrOK.2]
      exact isLuaFunction_ne_nil r.fn hrOK.1
    have hvalid' : (mFind r.parent h').isSome := by
      rw [hsome r.parent]; exact hvalid0
    have hhit : rawget (heapSet h' r.parent (keyOf r) r.fn)
        (Value.ref r.parent) (keyOf r) = rawget h0 (Value.ref r.parent) (keyOf r) := by
      rw [rawget_heapSet_self h' r.parent (keyOf r) r.fn hvalid', hrOK.2]
    obtain ⟨ih1, ih2⟩ := ih (heapSet h' r.parent (keyOf r) r.fn) hrestOK hsome2
    constructor
    · intro a k hex
      obtain ⟨r', hr', hpk⟩ := hex
      by_cases hrest : ∃ r'' ∈ rest, r''.parent = a ∧ keyOf r'' = k
      · rw [hstep]
        exact ih1 a k hrest
      · have hr'r : r' = r := by
          rcases List.mem_cons.mp hr' with he | he
          · exact he
          · exact absurd ⟨r', he, hpk⟩ hrest
        subst hr'r
        obtain ⟨hpa, hkk⟩ := hpk
        subst hpa
        subst hkk
        rw [hstep, ih2 r'.parent (keyOf r') hrest]
        exact hhit
    · intro a k hex
      have hrnot : ¬ (r.parent = a ∧ keyOf r = k) := by
        intro hc
        exact hex ⟨r, List.mem_cons_self r rest, hc⟩
      have hrestnot : ¬ ∃ r'' ∈ rest, r''.parent = a ∧ keyOf r'' = k := by
        intro hc
        obtain ⟨r'', hr'', hc⟩ := hc
        exact hex ⟨r'', List.mem_cons_of_mem r hr'', hc⟩
      rw [hstep, ih2 a k hrestnot]
      apply rawget_heapSet_ne
      by_cases hpa : a = r.parent
      · right
        intro hkk
        exact hrnot ⟨hpa.symm, hkk.symm⟩
      · left
        exact hpa

/-- C4: discovery of the root composite `foo` (address 1) containing nested
table `bar` (address 2) with function `baz`, and function `spam` directly
under `foo`, returns exactly the two records with paths `bar.baz` and
`spam` (no extras, no omissions), and each record's parent is reference
identical (same address) to the composite actually containing that
function: `baz` (function 1) is the member `baz` of address 2 and `spam`
(function 2) is the member `spam` of address 1. -/
theorem discovery_completeness_nested_example :
    FindFunctionsInComposite 0 heapNested 10 (Value.ref 1) =
      [⟨["bar", "baz"], 2, Value.fn 1⟩, ⟨["spam"], 1, Value.fn 2⟩] ∧
    rawget heapNested (Value.ref 2) "baz" = Value.fn 1 ∧
    rawget heapNested (Value.ref 1) "spam" = Value.fn 2 := by
  decide

/-- C5: running the default hooks over the concrete timeline (clock 1.0
enter foo, 1.2 enter bar, 1.3 exit bar, 1.45 enter bar, 1.5 exit bar, 1.6
exit foo) produces exactly the Report: foo has numCalls 1, min 0.6 (3/5),
max 0.6, total 0.6, one outgoing edge to bar with numCalls 2 and total 0.15
(3/20); bar has numCalls 2, min 0.05 (1/20), max 0.1 (1/10), total 0.15,
and no outgoing edges. -/
theorem default_aggregation_concrete_timeline :
    (runTimeline {} timelineDefault).map GenerateReport =
      some (Report.mk
        [(["foo"], ⟨1, 3/5, 3/5, 3/5, [(["bar"], ⟨2, 3/20⟩)]⟩),
         (["bar"], ⟨2, 1/20, 3/20, 1/10, []⟩)]) := by
  simp only [timelineDefault, runTimeline, DefaultBeforeInstrument,
    DefaultAfterInstrument, mAdj, GenerateReport, Option.map]
  norm_num [dblMax]

/-- C8: for the recursion timeline (enter foo at 1.0, re-enter foo at 1.2,
inner exit at 1.3, outer exit at 1.4) the default aggregation produces two
stack frames with the same path and records the self-edge like any other
edge: foo has numCalls 2, min 0.1 (1/10), max 0.4 (2/5), total 0.5 (1/2),
and a self-edge foo with numCalls 1 and total 0.1. -/
theorem default_aggregation_recursion_self_edge :
    (runTimeline {} timelineRecursion).map GenerateReport =
      some (Report.mk
        [(["foo"], ⟨2, 1/10, 1/2, 2/5, [(["foo"], ⟨1, 1/10⟩)]⟩)]) := by
  simp only [timelineRecursion, runTimeline, DefaultBeforeInstrument,
    DefaultAfterInstrument, mAdj, GenerateReport, Option.map]
  norm_num [dblMax]

/-- C1 (code bug): `StartInstrumentation` never resets the aggregator's
Report or CallStack, so after a full Start, first-timeline, Stop,
GenerateReport cycle followed by a second Start and the second timeline,
the final Report still carries the first session's values: foo has
numCalls 2 and totalTime 11/10 (= 0.6 + 0.5), not the second-timeline-only
values numCalls 1, totalTime 0.5 asserted by the repository's own
`Default_Instruments_Second_Run` test. -/
theorem report_not_reset_across_sessions :
    secondSessionReport.map (fun rep => reportGet rep ["foo"]) =
      some ⟨2, 1/2, 11/10, 3/5, [(["bar"], ⟨4, 7/20⟩)]⟩ ∧
    secondSessionReport.map (fun rep => reportGet rep ["foo"]) ≠
      some ⟨1, 1/2, 1/2, 1/2, [(["bar"], ⟨2, 1/5⟩)]⟩ := by
  have hstart : StartInstrumentation 10 heapGlobalsOnly 0 ({} : Impl) =
      (c1Impl1, heapGlobalsOnly) := rfl
  have hrun1 : runTimeline c1Impl1 timelineDefault = some c1Impl2 := by
    simp only [timelineDefault, runTimeline, DefaultBeforeInstrument,
      DefaultAfterInstrument, mAdj, c1Impl1, c1Impl2, c1Report1]
    norm_num [dblMax]
  have hstop1 : StopInstrumentation heapGlobalsOnly c1Impl2 =
      (c1Impl3, heapGlobalsOnly) := rfl
  have hstart2 : StartInstrumentation 10 heapGlobalsOnly 0 c1Impl3 =
      (c1Impl2, heapGlobalsOnly) := rfl
  have hrun2 : runTimeline c1Impl2 timelineSecond = some c1Impl5 := by
    simp only [timelineSecond, runTimeline, DefaultBeforeInstrument,
      DefaultAfterInstrument, mAdj, c1Impl2, c1Impl5, c1Report1, c1Report2]
    norm_num [dblMax]
  have hstop2 : StopInstrumentation heapGlobalsOnly c1Impl5 =
      (c1Impl6, heapGlobalsOnly) := rfl
  have hfinal : secondSessionReport = some c1Report2 := by
    simp only [secondSessionReport, hstart, hrun1, hstop1, hstart2, hrun2,
      hstop2, GenerateReport, c1Impl6]
  rw [hfinal]
  constructor
  · simp only [Option.map, reportGet, c1Report2, mGet]
    norm_num
  · simp only [Option.map, reportGet, c1Report2, mGet]
    norm_num

/-- C6: the wrapper closure is transparent and brackets the forwarded call
with the hooks: for every installed wrapper and every argument list and
hook state, invoking the wrapper calls the before hook, forwards the
received arguments unchanged to the original callable, captures its full
return-value set, calls the after hook, and returns the captured values
unchanged.  Moreover, in the concrete custom-hooks session over
`heapSingleFn`, invoking the instrumented global `foo` 3 times records
exactly 3 (before, after) pairs in hook-call order with the doubled results
returned, and a fourth invocation after Stop bypasses the hooks (the log is
unchanged) while returning the correct value 84. -/
theorem wrapper_transparency_and_custom_hooks :
    (∀ (σ : Type) (impls : Nat → List Value → List Value)
        (bH aH : Path → σ → σ) (orig : Value) (path : Path)
        (args : List Value) (st : σ),
      invokeValue impls bH aH (Value.wrapped orig path) args st =
        ((invokeValue impls bH aH orig args (bH path st)).1,
          aH path (invokeValue impls bH aH orig args (bH path st)).2)) ∧
    c6Call1.1 = [Value.num 10] ∧
    c6Call2.1 = [Value.num 12] ∧
    c6Call3.1 = [Value.num 14] ∧
    c6Call3.2 = [HookEvent.beforeEv ["foo"], HookEvent.afterEv ["foo"],
                 HookEvent.beforeEv ["foo"], HookEvent.afterEv ["foo"],
                 HookEvent.beforeEv ["foo"], HookEvent.afterEv ["foo"]] ∧
    rawget c6Stop.2 (Value.ref 0) "foo" = Value.fn 1 ∧
    c6Call4.1 = [Value.num 84] ∧
    c6Call4.2 = c6Call3.2 := by
  refine ⟨fun σ impls bH aH orig path args st => rfl, ?_⟩
  with_unfolding_all decide

/-- C7: `StartInstrumentation` is idempotent while a session is active:
applying Start to the engine state and heap produced by a Start is the
identity (guarded by `luaRegistryIndex != 0`), so two consecutive Starts
leave the engine and the composite graph exactly as one Start does, and no
callable is wrapped twice. -/
theorem start_idempotent_while_active (fuel : Nat) (h : Heap) (g : Nat)
    (s : Impl) :
    StartInstrumentation fuel (StartInstrumentation fuel h g s).2 g
        (StartInstrumentation fuel h g s).1 =
      StartInstrumentation fuel h g s := by
  cases hr : s.luaRegistry with
  | some r => simp [StartInstrumentation, hr]
  | none => simp [StartInstrumentation, hr]

/-- C3 (counterexample): in `heapAliased` the pair (composite 2, key "f")
is reachable through the two aliases `t.a` and `t.b`; discovery from the
globals root produces TWO records for that one (parent, key) pair — not at
most one — and installation wraps the location twice, with the LAST
discovery's wrapper (path t.b.f) standing, so "first discovery wins" also
fails. -/
theorem aliased_pair_double_record :
    FindFunctionsInComposite 0 heapAliased 10 (rawget heapAliased (Value.ref 0) "_G") =
      [⟨["t", "a", "f"], 2, Value.fn 7⟩, ⟨["t", "b", "f"], 2, Value.fn 7⟩] ∧
    (FindFunctionsInComposite 0 heapAliased 10
        (rawget heapAliased (Value.ref 0) "_G")).countP
      (fun r => r.parent == 2 && keyOf r == "f") = 2 ∧
    rawget (StartInstrumentation 10 heapAliased 0 {}).2 (Value.ref 2) "f" =
      Value.wrapped (Value.fn 7) ["t", "b", "f"] := by
  decide

/-- C3 (amended): discovery deduplicates only through the direct
self-reference guard and the denylist, so a (parent composite, key) pair
reachable through several aliases is recorded (and wrapped) once per alias;
however, all records produced for the same (parent, key) pair in one
discovery of a well-formed heap carry the identical original callable (the
member currently stored there), so each repeated installation wraps the
same original. -/
theorem records_at_same_location_share_original (g : Nat) (h : Heap)
    (fuel : Nat) (root : Value) (hwf : WFHeap h) (r1 r2 : CallableRecord)
    (h1 : r1 ∈ FindFunctionsInComposite g h fuel root)
    (h2 : r2 ∈ FindFunctionsInComposite g h fuel root)
    (hp : r1.parent = r2.parent) (hk : keyOf r1 = keyOf r2) :
    r1.fn = r2.fn := by
  have s1 := discovery_sound_root g h fuel root hwf r1 h1
  have s2 := discovery_sound_root g h fuel root hwf r2 h2
  rw [← s1.2.2, ← s2.2.2, hp, hk]

/-- Witness for the amended C3 theorem at the aliased heap: the two records
discovered at (parent 2, key "f") carry the same original function. -/
theorem records_at_same_location_share_original_witness :
    WFHeap heapAliased ∧
    (⟨["t", "a", "f"], 2, Value.fn 7⟩ : CallableRecord).fn =
      (⟨["t", "b", "f"], 2, Value.fn 7⟩ : CallableRecord).fn :=
  ⟨by unfold WFHeap; decide,
    records_at_same_location_share_original 0 heapAliased 10
      (rawget heapAliased (Value.ref 0) "_G") (by unfold WFHeap; decide)
      ⟨["t", "a", "f"], 2, Value.fn 7⟩ ⟨["t", "b", "f"], 2, Value.fn 7⟩
      (by decide) (by decide) rfl rfl⟩

/-- C9 (counterexample): `minTime` is initialized to the largest FINITE
double, `std::numeric_limits<double>::max()` = (2^53-1)*2^971, not to
+infinity: there is a larger value (2^1024), and for a first completed call
whose elapsed time is 2^1024 - 0 the min comparison is NOT won by the call:
the recorded minTime stays at the sentinel and differs from the first
sample's elapsed time. -/
theorem min_sentinel_not_infinity :
    ({} : FunctionInformation).minTime = dblMax ∧
    dblMax < (2 : ℚ) ^ 1024 ∧
    (DefaultAfterInstrument (2 ^ 1024) ["f"]
        (DefaultBeforeInstrument 0 ["f"] ({} : Impl))).map
      (fun s => (reportGet (GenerateReport s) ["f"]).minTime) = some dblMax ∧
    dblMax ≠ (2 : ℚ) ^ 1024 - 0 := by
  refine ⟨rfl, by rw [dblMax]; norm_num, ?_, by rw [dblMax]; norm_num⟩
  simp only [DefaultBeforeInstrument, DefaultAfterInstrument, mAdj, reportGet,
    GenerateReport, mGet, Option.map]
  norm_num [dblMax]

/-- C9 (amended): `minTime` is initialized to the sentinel
`std::numeric_limits<double>::max()` (the largest finite double) before the
first sample, so for a function's first completed call whose elapsed time
is at most that sentinel, the min comparison is won by the call and
`minTime` equals the elapsed time of the first sample. -/
theorem first_sample_wins_below_dblmax (p : Path) (t0 t1 : ℚ)
    (hle : t1 - t0 ≤ dblMax) :
    (DefaultAfterInstrument t1 p (DefaultBeforeInstrument t0 p ({} : Impl))).map
      (fun s => (reportGet (GenerateReport s) p).minTime) = some (t1 - t0) := by
  simp only [DefaultBeforeInstrument, DefaultAfterInstrument, mAdj, reportGet,
    GenerateReport, mGet, Option.map]
  simp [min_eq_right hle]

/-- Witness for the amended C9 theorem: a first call entered at clock 0 and
exited at clock 1 records minTime 1 - 0. -/
theorem first_sample_wins_below_dblmax_witness :
    (DefaultAfterInstrument 1 ["f"] (DefaultBeforeInstrument 0 ["f"] ({} : Impl))).map
      (fun s => (reportGet (GenerateReport s) ["f"]).minTime) = some (1 - 0) :=
  first_sample_wins_below_dblmax ["f"] 0 1 (by rw [dblMax]; norm_num)

/-- C10 (counterexample): over the minimal globals heap discovery returns
zero records, yet `StartInstrumentation` still allocates the session: the
registry reference is taken unconditionally (`luaL_ref` runs even for an
empty record list), so the engine's session state is NOT left unallocated —
while indeed nothing in the composite graph is mutated. -/
theorem session_allocated_despite_zero_records :
    FindFunctionsInComposite 0 heapGlobalsOnly 10
        (rawget heapGlobalsOnly (Value.ref 0) "_G") = [] ∧
    (StartInstrumentation 10 heapGlobalsOnly 0 {}).1.luaRegistry ≠ none ∧
    (StartInstrumentation 10 heapGlobalsOnly 0 {}).2 = heapGlobalsOnly := by
  decide

/-- C10 (amended): a Start whose discovery finds zero callables is valid
and mutates nothing in the target composite graph, and the session is a
no-op (the following Stop restores nothing and returns the heap
unchanged); however the session state IS allocated: the registry reference
is taken unconditionally, holding the empty record list. -/
theorem zero_records_noop_session (fuel : Nat) (h : Heap) (g : Nat) (s : Impl)
    (h1 : s.luaRegistry = none)
    (h2 : FindFunctionsInComposite g h fuel (rawget h (Value.ref g) "_G") = []) :
    (StartInstrumentation fuel h g s).2 = h ∧
    (StartInstrumentation fuel h g s).1.luaRegistry = some [] ∧
    StopInstrumentation (StartInstrumentation fuel h g s).2
        (StartInstrumentation fuel h g s).1 =
      ({ s with luaHeld := false, luaRegistry := none }, h) := by
  simp [StartInstrumentation, StopInstrumentation, h1, h2, installRecords,
    restoreRecords]

/-- Witness for the amended C10 theorem at the minimal globals heap. -/
theorem zero_records_noop_session_witness :
    (StartInstrumentation 10 heapGlobalsOnly 0 ({} : Impl)).2 = heapGlobalsOnly ∧
    (StartInstrumentation 10 heapGlobalsOnly 0 ({} : Impl)).1.luaRegistry = some [] ∧
    StopInstrumentation (StartInstrumentation 10 heapGlobalsOnly 0 ({} : Impl)).2
        (StartInstrumentation 10 heapGlobalsOnly 0 ({} : Impl)).1 =
      ({ ({} : Impl) with luaHeld := false, luaRegistry := none }, heapGlobalsOnly) :=
  zero_records_noop_session 10 heapGlobalsOnly 0 {} rfl (by decide)

/-- C2: for every callable discovered and wrapped by a Start on a
well-formed heap with no session active, the immediately following Stop
(no intervening mutation) writes the original callable back at its
recorded (parent composite, last path key), so the value stored at that
location after Stop is identical (reference identity: value equality in the
model, address equality for composites) to the value stored there before
Start. -/
theorem stop_restores_originals (fuel : Nat) (h : Heap) (g : Nat) (s : Impl)
    (hwf : WFHeap h) (hidle : s.luaRegistry = none) :
    ∀ r ∈ (StartInstrumentation fuel h g s).1.luaRegistry.getD [],
      rawget (StopInstrumentation (StartInstrumentation fuel h g s).2
          (StartInstrumentation fuel h g s).1).2
        (Value.ref r.parent) (keyOf r) =
      rawget h (Value.ref r.parent) (keyOf r) := by
  have hstart : StartInstrumentation fuel h g s =
      ({ s with
          luaHeld := true
          luaRegistry :=
            some (FindFunctionsInComposite g h fuel (rawget h (Value.ref g) "_G")) },
        installRecords h
          (FindFunctionsInComposite g h fuel (rawget h (Value.ref g) "_G"))) := by
    simp [StartInstrumentation, hidle]
  rw [hstart]
  intro r hr
  simp only [Option.getD] at hr
  simp only [StopInstrumentation]
  have hsound : ∀ r' ∈ FindFunctionsInComposite g h fuel
      (rawget h (Value.ref g) "_G"),
      isLuaFunction r'.fn = true ∧
        rawget h (Value.ref r'.parent) (keyOf r') = r'.fn := by
    intro r' hr'
    have t := discovery_sound_root g h fuel (rawget h (Value.ref g) "_G") hwf r' hr'
    exact ⟨t.1, t.2.2⟩
  have hsome := installRecords_isSome (FindFunctionsInComposite g h fuel
    (rawget h (Value.ref g) "_G")) h
  exact (restoreRecords_get h _ _ hsound hsome).1 r.parent (keyOf r)
    ⟨r, hr, rfl, rfl⟩

/-- Witness for the C2 theorem: on the aliased example heap, the member at
(composite 2, key "f") after Start-then-Stop equals its pre-Start value. -/
theorem stop_restores_originals_witness :
    rawget (StopInstrumentation (StartInstrumentation 10 heapAliased 0 ({} : Impl)).2
        (StartInstrumentation 10 heapAliased 0 ({} : Impl)).1).2
      (Value.ref 2) "f" = rawget heapAliased (Value.ref 2) "f" := by
  have happ := stop_restores_originals 10 heapAliased 0 {}
    (by unfold WFHeap; decide) rfl
  have hmem : (⟨["t", "a", "f"], 2, Value.fn 7⟩ : CallableRecord) ∈
      (StartInstrumentation 10 heapAliased 0 ({} : Impl)).1.luaRegistry.getD [] := by
    decide
  exact happ _ hmem
